import Mathlib

/-!
Verification of the Hyperion switch platform
(`homeassistant/components/hyperion/switch.py`).

The module has two parts:

* a reconciler (`async_instances_to_entities_raw` and its dispatcher wrapper
  `async_instances_to_entities`) that diffs a snapshot of server instances
  against a process-local set `current_entities` of already-materialised
  entity identifiers, creating a `HyperionSwitch` entity for every
  (running instance, component) pair not yet known;
* the `HyperionSwitch` entity itself, whose `async_turn_on` /
  `async_turn_off` methods issue set-component commands to the client and
  whose `_update_components` callback re-renders from cached state.

The embedding below is state-passing: the mutable set becomes an explicit
field threaded through the loop, external client calls become oracle
functions recorded in a trace, and `raise` becomes `Except.error`.
-/

namespace Hyperion

/-- Configuration options (`config_entry.options`); the switch module stores
them on the entity but never reads them, so an association list suffices. -/
abbrev Options := List (String × String)

/-- The external Hyperion client handle, abstracted by the results of the
calls this module makes on it: `is_on` (cached component state),
`async_send_set_component` (command result), `has_loaded_state`, and
`async_sysinfo_id`. -/
structure HyperionClient where
  is_on : List String → Bool
  send_set_component : String → Bool → Bool
  has_loaded_state : Bool
  sysinfo_id : Option String

/-- One entry of the instances snapshot, a JSON object from which the code
reads `instance.get(KEY_INSTANCE)` (may be absent) and
`instance.get(KEY_RUNNING, False)` (defaults to false when absent). -/
structure Instance where
  instance_id : Option Nat
  running : Option Bool
deriving DecidableEq

/-- External-source component ids from the hyperion client library constant
`const.KEY_COMPONENTID_EXTERNAL_SOURCES`. -/
def KEY_COMPONENTID_EXTERNAL_SOURCES : List String :=
  ["BOBLIGHTSERVER", "GRABBER", "V4L"]

/-- The LED-device component id, `const.KEY_COMPONENTID_LEDDEVICE`. -/
def KEY_COMPONENTID_LEDDEVICE : String := "LEDDEVICE"

/-- Switch type tag `TYPE_HYPERION_SWITCH` from the integration's `const`
module; the spec's scenario fixes its value through the identifier
`abc_1_hyperion_switch_USB_CAPTURE`. -/
def TYPE_HYPERION_SWITCH : String := "hyperion_switch"

/-- Character of a single decimal digit. -/
def digitChar10 (d : Nat) : Char :=
  List.getD ['0', '1', '2', '3', '4', '5', '6', '7', '8', '9'] d '0'

/-- Python's `str(n)` for a nonnegative integer: decimal digits, most
significant first. -/
def natStr (n : Nat) : String :=
  if n = 0 then "0" else String.mk (((Nat.digits 10 n).map digitChar10).reverse)

/-- Modelled from the spec: `get_hyperion_unique_id` is imported from the
integration package (`homeassistant/components/hyperion/__init__.py`), which
is not part of this source tree.  The spec describes the derivation as the
concatenation of server id, instance id and name, and its scenario fixes the
format through `abc_1_hyperion_switch_USB_CAPTURE`: underscore-joined
`server_id`, `instance_id`, `name`. -/
def get_hyperion_unique_id (server_id : String) (instance_id : Nat)
    (name : String) : String :=
  server_id ++ "_" ++ natStr instance_id ++ "_" ++ name

/-- The unique id the switch module derives for one (instance, component)
pair: `get_hyperion_unique_id(server_id, instance_id,
TYPE_HYPERION_SWITCH + "_" + component)`. -/
def switchUid (server_id : String) (instance_id : Nat)
    (component : String) : String :=
  get_hyperion_unique_id server_id instance_id
    (TYPE_HYPERION_SWITCH ++ "_" ++ component)

/-- The component list the reconciler iterates:
`const.KEY_COMPONENTID_EXTERNAL_SOURCES + [const.KEY_COMPONENTID_LEDDEVICE]`. -/
def componentsForSwitch : List String :=
  KEY_COMPONENTID_EXTERNAL_SOURCES ++ [KEY_COMPONENTID_LEDDEVICE]

/-- The switch entity's constructor-time state: `HyperionSwitch.__init__`
stores the unique id, the display name (the component id), the options
mapping and the per-instance client handle. -/
structure HyperionSwitch where
  unique_id : String
  name : String
  options : Options
  client : HyperionClient

/-- Python `set.add`: no-op when the element is present. -/
def setAdd (s : List String) (x : String) : List String :=
  if x ∈ s then s else x :: s

/-- Ambient data of one reconciler run: the config entry's `unique_id`
(server id), the oracle for `async_create_connect_hyperion_client`
(argument: the instance id passed to it; `none` models a falsy handle), and
the config entry options. -/
structure Ctx where
  server_id : String
  conn : Nat → Option HyperionClient
  options : Options

/-- The loop state of `async_instances_to_entities_raw`: the mutable
`current_entities` set, the `desired_unique_ids` set, the `entities_to_add`
list, plus a trace of the unique ids for which a client connection was
attempted. -/
structure DiffAcc where
  current_entities : List String
  desired_unique_ids : List String
  entities_to_add : List HyperionSwitch
  connect_attempts : List String

/-- Result of one reconciler run: the final loop state together with the
removal effects (removal signals broadcast, registry deletions requested).
The removal block in the source is commented out, so the run never emits
any. -/
structure DiffResult where
  current_entities : List String
  desired_unique_ids : List String
  entities_to_add : List HyperionSwitch
  connect_attempts : List String
  removal_signals : List String
  registry_removals : List String

/-- Body of the inner `for component in ...` loop: compute the unique id,
add it to `desired_unique_ids`, skip if already known, otherwise attempt a
client connection; on a falsy handle skip, else add the id to
`current_entities` and append the new entity. -/
def stepComponent (ctx : Ctx) (iid : Nat) (component : String)
    (acc : DiffAcc) : DiffAcc :=
  let uid := switchUid ctx.server_id iid component
  let acc1 := { acc with desired_unique_ids := setAdd acc.desired_unique_ids uid }
  if uid ∈ acc.current_entities then acc1
  else
    match ctx.conn iid with
    | none => { acc1 with connect_attempts := acc1.connect_attempts ++ [uid] }
    | some cl =>
      { acc1 with
        connect_attempts := acc1.connect_attempts ++ [uid]
        current_entities := setAdd acc1.current_entities uid
        entities_to_add := acc1.entities_to_add ++
          [{ unique_id := uid, name := component, options := ctx.options,
             client := cl }] }

/-- The inner loop over the component list. -/
def runComponents (ctx : Ctx) (iid : Nat) :
    List String → DiffAcc → DiffAcc
  | [], acc => acc
  | c :: cs, acc => runComponents ctx iid cs (stepComponent ctx iid c acc)

/-- Body of the outer `for instance in instances` loop: `continue` when
`instance.get(KEY_INSTANCE)` is absent or the instance is not running,
otherwise run the component loop. -/
def stepInstance (ctx : Ctx) (inst : Instance) (acc : DiffAcc) : DiffAcc :=
  match inst.instance_id with
  | none => acc
  | some iid =>
    if inst.running.getD false then runComponents ctx iid componentsForSwitch acc
    else acc

/-- The outer loop over the instances snapshot. -/
def runInstances (ctx : Ctx) : List Instance → DiffAcc → DiffAcc
  | [], acc => acc
  | i :: rest, acc => runInstances ctx rest (stepInstance ctx i acc)

/-- `async_instances_to_entities_raw`: run the diff loop from the given
`current_entities` set; the commented-out removal block contributes no
removal signals and no registry deletions. -/
def async_instances_to_entities_raw (ctx : Ctx) (current_entities : List String)
    (instances : List Instance) : DiffResult :=
  let acc := runInstances ctx instances
    { current_entities := current_entities, desired_unique_ids := []
      entities_to_add := [], connect_attempts := [] }
  { current_entities := acc.current_entities
    desired_unique_ids := acc.desired_unique_ids
    entities_to_add := acc.entities_to_add
    connect_attempts := acc.connect_attempts
    removal_signals := []
    registry_removals := [] }

/-- The dispatcher payload: a JSON object that may or may not carry the
`KEY_DATA` key; `none` at the outer level models a falsy response. -/
structure InstancesResponse where
  data : Option (List Instance)

/-- `async_instances_to_entities`: the dispatcher handler; returns
immediately (no diff, no state change) when the response is falsy or lacks
the data key. -/
def async_instances_to_entities (ctx : Ctx) (current_entities : List String)
    (response : Option InstancesResponse) : DiffResult :=
  match response with
  | none =>
    { current_entities := current_entities, desired_unique_ids := []
      entities_to_add := [], connect_attempts := []
      removal_signals := [], registry_removals := [] }
  | some r =>
    match r.data with
    | none =>
      { current_entities := current_entities, desired_unique_ids := []
        entities_to_add := [], connect_attempts := []
        removal_signals := [], registry_removals := [] }
    | some instances => async_instances_to_entities_raw ctx current_entities instances

/-- One instances-update event: the dispatcher payload it delivers and the
connection oracle in effect while it is processed. -/
structure UpdateEvent where
  response : Option InstancesResponse
  conn : Nat → Option HyperionClient

/-- Process a sequence of update events, threading `current_entities`
through; returns the final set and the per-event results. -/
def runEvents (server_id : String) (options : Options) :
    List UpdateEvent → List String → List String × List DiffResult
  | [], current => (current, [])
  | e :: rest, current =>
    let r := async_instances_to_entities
      { server_id := server_id, conn := e.conn, options := options }
      current e.response
    let p := runEvents server_id options rest r.current_entities
    (p.1, r :: p.2)

/-- A set-component command sent to the client
(`async_send_set_component(componentstate={component, state})`). -/
structure SetComponentCall where
  component : String
  state : Bool
deriving DecidableEq

/-- `HyperionSwitch.is_on`: reads the client's cached component state via
`self._client.is_on([self._name])`. -/
def HyperionSwitch.isOnProp (e : HyperionSwitch) : Bool :=
  e.client.is_on [e.name]

/-- `HyperionSwitch.async_turn_on`: when the cached state is already on, do
nothing; otherwise send one set-component(true) command.  The command's
result is inspected (`if not await ...: return`) but both branches return
normally.  The `Except` layer records that no exception path exists. -/
def async_turn_on (e : HyperionSwitch) :
    Except String (HyperionSwitch × List SetComponentCall) :=
  if e.isOnProp then Except.ok (e, [])
  else
    if e.client.send_set_component e.name true then
      Except.ok (e, [{ component := e.name, state := true }])
    else
      Except.ok (e, [{ component := e.name, state := true }])

/-- `HyperionSwitch.async_turn_off`: unconditionally send one
set-component(false) command; the result is inspected but both branches
return normally. -/
def async_turn_off (e : HyperionSwitch) :
    Except String (HyperionSwitch × List SetComponentCall) :=
  if e.client.send_set_component e.name false then
    Except.ok (e, [{ component := e.name, state := false }])
  else
    Except.ok (e, [{ component := e.name, state := false }])

/-- Observable actions a switch entity performs on the host framework. -/
inductive EntityAction
  | writeHAState
deriving DecidableEq

/-- `HyperionSwitch._update_components`: ignores its payload argument and
calls `self.async_write_ha_state()`. -/
def update_components (_e : HyperionSwitch)
    (_payload : Option (List (String × String))) :
    Except String (List EntityAction) :=
  Except.ok [EntityAction.writeHAState]

/-- The error `async_setup_platform` can raise. -/
inductive SetupError
  | platformNotReady
deriving DecidableEq

/-- `async_setup_platform` (YAML path): raise `PlatformNotReady` when the
client connection fails (falsy handle) or when `async_sysinfo_id` returns a
falsy id (absent or empty string); otherwise return normally. -/
def async_setup_platform (connectResult : Option HyperionClient) :
    Except SetupError Unit :=
  match connectResult with
  | none => Except.error SetupError.platformNotReady
  | some cl =>
    match cl.sysinfo_id with
    | none => Except.error SetupError.platformNotReady
    | some s =>
      if s = "" then Except.error SetupError.platformNotReady
      else Except.ok ()

/-! ### Decimal printing and unique-id injectivity -/

theorem digitChar10_fin_inj :
    ∀ d1 d2 : Fin 10, digitChar10 d1 = digitChar10 d2 → d1 = d2 := by decide

theorem digitChar10_inj {d1 d2 : Nat} (h1 : d1 < 10) (h2 : d2 < 10)
    (h : digitChar10 d1 = digitChar10 d2) : d1 = d2 :=
  congrArg Fin.val (digitChar10_fin_inj ⟨d1, h1⟩ ⟨d2, h2⟩ h)

theorem digitChar10_ne_underscore {d : Nat} (h : d < 10) :
    digitChar10 d ≠ '_' := by
  have hall : ∀ d : Fin 10, digitChar10 d ≠ '_' := by decide
  exact hall ⟨d, h⟩

theorem natStr_data_of_ne_zero {n : Nat} (hn : n ≠ 0) :
    (natStr n).data = ((Nat.digits 10 n).map digitChar10).reverse := by
  unfold natStr
  rw [if_neg hn]

theorem natStr_data_not_underscore (n : Nat) : '_' ∉ (natStr n).data := by
  by_cases hn : n = 0
  · subst hn
    decide
  · rw [natStr_data_of_ne_zero hn]
    intro hmem
    rw [List.mem_reverse] at hmem
    obtain ⟨d, hd, hEq⟩ := List.mem_map.mp hmem
    exact digitChar10_ne_underscore (Nat.digits_lt_base (by norm_num) hd) hEq

theorem map_digitChar10_inj :
    ∀ (l1 l2 : List Nat), (∀ d ∈ l1, d < 10) → (∀ d ∈ l2, d < 10) →
      l1.map digitChar10 = l2.map digitChar10 → l1 = l2 := by
  intro l1
  induction l1 with
  | nil =>
    intro l2 _ _ h
    cases l2 with
    | nil => rfl
    | cons b t => simp at h
  | cons a t ih =>
    intro l2 h1 h2 h
    cases l2 with
    | nil => simp at h
    | cons b t2 =>
      simp only [List.map_cons, List.cons.injEq] at h
      have hab : a = b :=
        digitChar10_inj (h1 a (List.mem_cons_self a t))
          (h2 b (List.mem_cons_self b t2)) h.1
      have ht : t = t2 :=
        ih t2 (fun d hd => h1 d (List.mem_cons_of_mem _ hd))
          (fun d hd => h2 d (List.mem_cons_of_mem _ hd)) h.2
      rw [hab, ht]

theorem natStr_inj {a b : Nat} (h : natStr a = natStr b) : a = b := by
  have bounds : ∀ n : Nat, ∀ d ∈ Nat.digits 10 n, d < 10 := by
    intro n d hd
    exact Nat.digits_lt_base (by norm_num) hd
  have zeroCase : ∀ {n : Nat}, n ≠ 0 →
      (natStr n).data = (natStr 0).data → False := by
    intro n hn hEq
    rw [natStr_data_of_ne_zero hn] at hEq
    have h2 : (Nat.digits 10 n).map digitChar10 = ['0'] := by
      have := congrArg List.reverse hEq
      simpa using this
    have h3 : Nat.digits 10 n = [0] := by
      refine map_digitChar10_inj _ _ (bounds n) ?_ h2
      intro d hd
      simp only [List.mem_singleton] at hd
      omega
    have h4 : n = 0 := by
      have := congrArg (Nat.ofDigits 10) h3
      rw [Nat.ofDigits_digits] at this
      simpa [Nat.ofDigits] using this
    exact hn h4
  have hd := congrArg String.data h
  by_cases ha : a = 0 <;> by_cases hb : b = 0
  · rw [ha, hb]
  · exact absurd (zeroCase hb (ha ▸ hd).symm) (fun x => x)
  · exact absurd (zeroCase ha (hb ▸ hd)) (fun x => x)
  · rw [natStr_data_of_ne_zero ha, natStr_data_of_ne_zero hb] at hd
    have h2 := List.reverse_injective hd
    have h3 := map_digitChar10_inj _ _ (bounds a) (bounds b) h2
    have := congrArg (Nat.ofDigits 10) h3
    rwa [Nat.ofDigits_digits, Nat.ofDigits_digits] at this

theorem splitAtUnderscore :
    ∀ (xs xs' ys ys' : List Char), '_' ∉ xs → '_' ∉ xs' →
      xs ++ '_' :: ys = xs' ++ '_' :: ys' → xs = xs' ∧ ys = ys' := by
  intro xs
  induction xs with
  | nil =>
    intro xs' ys ys' _ hx2 h
    cases xs' with
    | nil => simpa using h
    | cons c t =>
      simp only [List.nil_append, List.cons_append, List.cons.injEq] at h
      exact absurd (h.1 ▸ List.mem_cons_self c t) hx2
  | cons c t ih =>
    intro xs' ys ys' hx1 hx2 h
    cases xs' with
    | nil =>
      simp only [List.nil_append, List.cons_append, List.cons.injEq] at h
      exact absurd (h.1 ▸ List.mem_cons_self c t) hx1
    | cons c' t' =>
      simp only [List.cons_append, List.cons.injEq] at h
      obtain ⟨hc, hrest⟩ := h
      have hx1' : '_' ∉ t := fun hm => hx1 (List.mem_cons_of_mem _ hm)
      have hx2' : '_' ∉ t' := fun hm => hx2 (List.mem_cons_of_mem _ hm)
      obtain ⟨h1, h2⟩ := ih t' ys ys' hx1' hx2' hrest
      exact ⟨by rw [hc, h1], h2⟩

theorem switchUid_inj {s : String} {i1 i2 : Nat} {c1 c2 : String}
    (h : switchUid s i1 c1 = switchUid s i2 c2) : i1 = i2 ∧ c1 = c2 := by
  have hd := congrArg String.data h
  have hu : ("_" : String).data = ['_'] := rfl
  simp only [switchUid, get_hyperion_unique_id, TYPE_HYPERION_SWITCH,
    String.data_append, List.append_assoc, hu, List.singleton_append] at hd
  have hd1 := List.append_cancel_left hd
  have hd2 : (natStr i1).data ++ '_' ::
      (("hyperion_switch" : String).data ++ '_' :: c1.data) =
      (natStr i2).data ++ '_' ::
      (("hyperion_switch" : String).data ++ '_' :: c2.data) := by
    injection hd1
  obtain ⟨hn, hrest⟩ := splitAtUnderscore _ _ _ _
    (natStr_data_not_underscore i1) (natStr_data_not_underscore i2) hd2
  have hi : i1 = i2 := natStr_inj (String.ext hn)
  have hc : c1 = c2 := by
    have := List.append_cancel_left hrest
    have hcd : c1.data = c2.data := by injection this
    exact String.ext hcd
  exact ⟨hi, hc⟩

/-- C5: for a fixed server id, the identifier derivation is injective over
(instance id, component type) pairs: distinct pairs never produce the same
entity identifier. -/
theorem unique_id_injective (s : String) (i1 i2 : Nat) (c1 c2 : String)
    (h : switchUid s i1 c1 = switchUid s i2 c2) : i1 = i2 ∧ c1 = c2 :=
  switchUid_inj h

/-- Witness for C5 at a concrete identifier equation. -/
theorem unique_id_injective_witness : (1 : Nat) = 1 ∧ "V4L" = "V4L" :=
  unique_id_injective "abc" 1 1 "V4L" "V4L" rfl

/-! ### Concrete values used by witnesses -/

/-- A client handle whose set-component command always reports failure. -/
def clientFailing : HyperionClient :=
  { is_on := fun _ => false, send_set_component := fun _ _ => false
    has_loaded_state := true, sysinfo_id := some "sid" }

/-- A switch entity backed by the always-failing client. -/
def switchFailing : HyperionSwitch :=
  { unique_id := "u", name := "V4L", options := [], client := clientFailing }

/-- A dispatcher response carrying no data key. -/
def respNoData : InstancesResponse := { data := none }

/-- An instance entry with the instance-id key absent. -/
def instNoId : Instance := { instance_id := none, running := some true }

/-- An instance entry that is not running (running key absent). -/
def instStopped : Instance := { instance_id := some 0, running := none }

/-- A context whose connection oracle always yields a falsy handle. -/
def ctxNone : Ctx := { server_id := "srv", conn := fun _ => none, options := [] }

/-- A client handle whose commands always succeed. -/
def clientOk : HyperionClient :=
  { is_on := fun _ => false, send_set_component := fun _ _ => true
    has_loaded_state := true, sysinfo_id := some "sid" }

/-- A connection oracle that always yields a handle. -/
def connAllOk : Nat → Option HyperionClient := fun _ => some clientOk

/-- A running instance entry with id 1. -/
def demoInst : Instance := { instance_id := some 1, running := some true }

/-- A one-instance snapshot. -/
def demoInstances : List Instance := [demoInst]

/-- One update event delivering the one-instance snapshot. -/
def demoEvent : UpdateEvent :=
  { response := some { data := some demoInstances }, conn := connAllOk }

/-! ### Set-add lemmas -/

theorem mem_setAdd_iff {s : List String} {x y : String} :
    y ∈ setAdd s x ↔ y = x ∨ y ∈ s := by
  unfold setAdd
  split
  · rename_i hx
    constructor
    · exact fun h => Or.inr h
    · rintro (rfl | h)
      · exact hx
      · exact h
  · exact List.mem_cons

theorem setAdd_subset (s : List String) (x : String) : s ⊆ setAdd s x :=
  fun _ hy => mem_setAdd_iff.mpr (Or.inr hy)

theorem mem_setAdd_self (s : List String) (x : String) : x ∈ setAdd s x :=
  mem_setAdd_iff.mpr (Or.inl rfl)

/-! ### Case analysis of one component step -/

theorem stepComponent_cases (ctx : Ctx) (iid : Nat) (c : String) (acc : DiffAcc) :
    (switchUid ctx.server_id iid c ∈ acc.current_entities ∧
      stepComponent ctx iid c acc =
        { acc with desired_unique_ids := setAdd acc.desired_unique_ids (switchUid ctx.server_id iid c) }) ∨
    (switchUid ctx.server_id iid c ∉ acc.current_entities ∧ ctx.conn iid = none ∧
      stepComponent ctx iid c acc =
        { acc with
          desired_unique_ids := setAdd acc.desired_unique_ids (switchUid ctx.server_id iid c),
          connect_attempts := acc.connect_attempts ++ [switchUid ctx.server_id iid c] }) ∨
    (∃ cl, switchUid ctx.server_id iid c ∉ acc.current_entities ∧
      ctx.conn iid = some cl ∧
      stepComponent ctx iid c acc =
        { current_entities := setAdd acc.current_entities (switchUid ctx.server_id iid c),
          desired_unique_ids := setAdd acc.desired_unique_ids (switchUid ctx.server_id iid c),
          entities_to_add := acc.entities_to_add ++ [{ unique_id := switchUid ctx.server_id iid c, name := c, options := ctx.options, client := cl }],
          connect_attempts := acc.connect_attempts ++ [switchUid ctx.server_id iid c] }) := by
  by_cases hmem : switchUid ctx.server_id iid c ∈ acc.current_entities
  · exact Or.inl ⟨hmem, by simp [stepComponent, hmem]⟩
  · cases hconn : ctx.conn iid with
    | none =>
      exact Or.inr (Or.inl ⟨hmem, rfl, by simp [stepComponent, hmem, hconn]⟩)
    | some cl =>
      exact Or.inr (Or.inr ⟨cl, hmem, rfl, by simp [stepComponent, hmem, hconn]⟩)

/-! ### Monotonicity of the loop state -/

theorem stepComponent_current_mono (ctx : Ctx) (iid : Nat) (c : String)
    (acc : DiffAcc) :
    acc.current_entities ⊆ (stepComponent ctx iid c acc).current_entities := by
  rcases stepComponent_cases ctx iid c acc with ⟨_, h⟩ | ⟨_, _, h⟩ | ⟨cl, _, _, h⟩ <;>
    rw [h]
  · exact fun x hx => hx
  · exact fun x hx => hx
  · exact setAdd_subset _ _

theorem stepComponent_attempts_mono (ctx : Ctx) (iid : Nat) (c : String)
    (acc : DiffAcc) :
    acc.connect_attempts ⊆ (stepComponent ctx iid c acc).connect_attempts := by
  rcases stepComponent_cases ctx iid c acc with ⟨_, h⟩ | ⟨_, _, h⟩ | ⟨cl, _, _, h⟩ <;>
    rw [h]
  · exact fun x hx => hx
  · exact fun x hx => List.mem_append_left _ hx
  · exact fun x hx => List.mem_append_left _ hx

theorem runComponents_current_mono (ctx : Ctx) (iid : Nat) :
    ∀ (cs : List String) (acc : DiffAcc),
      acc.current_entities ⊆ (runComponents ctx iid cs acc).current_entities := by
  intro cs
  induction cs with
  | nil => exact fun acc x hx => hx
  | cons c cs ih =>
    intro acc
    exact (stepComponent_current_mono ctx iid c acc).trans
      (ih (stepComponent ctx iid c acc))

theorem runComponents_attempts_mono (ctx : Ctx) (iid : Nat) :
    ∀ (cs : List String) (acc : DiffAcc),
      acc.connect_attempts ⊆ (runComponents ctx iid cs acc).connect_attempts := by
  intro cs
  induction cs with
  | nil => exact fun acc x hx => hx
  | cons c cs ih =>
    intro acc
    exact (stepComponent_attempts_mono ctx iid c acc).trans
      (ih (stepComponent ctx iid c acc))

theorem stepInstance_current_mono (ctx : Ctx) (i : Instance) (acc : DiffAcc) :
    acc.current_entities ⊆ (stepInstance ctx i acc).current_entities := by
  cases hid : i.instance_id with
  | none =>
    simp only [stepInstance, hid]
    exact fun x hx => hx
  | some iid =>
    by_cases hrun : i.running.getD false = true
    · simp only [stepInstance, hid, hrun, if_true]
      exact runComponents_current_mono ctx iid componentsForSwitch acc
    · simp only [stepInstance, hid, hrun, if_false]
      exact fun x hx => hx

theorem stepInstance_attempts_mono (ctx : Ctx) (i : Instance) (acc : DiffAcc) :
    acc.connect_attempts ⊆ (stepInstance ctx i acc).connect_attempts := by
  cases hid : i.instance_id with
  | none =>
    simp only [stepInstance, hid]
    exact fun x hx => hx
  | some iid =>
    by_cases hrun : i.running.getD false = true
    · simp only [stepInstance, hid, hrun, if_true]
      exact runComponents_attempts_mono ctx iid componentsForSwitch acc
    · simp only [stepInstance, hid, hrun, if_false]
      exact fun x hx => hx

theorem runInstances_current_mono (ctx : Ctx) :
    ∀ (is : List Instance) (acc : DiffAcc),
      acc.current_entities ⊆ (runInstances ctx is acc).current_entities := by
  intro is
  induction is with
  | nil => exact fun acc x hx => hx
  | cons i rest ih =>
    intro acc
    exact (stepInstance_current_mono ctx i acc).trans (ih (stepInstance ctx i acc))

theorem runInstances_attempts_mono (ctx : Ctx) :
    ∀ (is : List Instance) (acc : DiffAcc),
      acc.connect_attempts ⊆ (runInstances ctx is acc).connect_attempts := by
  intro is
  induction is with
  | nil => exact fun acc x hx => hx
  | cons i rest ih =>
    intro acc
    exact (stepInstance_attempts_mono ctx i acc).trans (ih (stepInstance ctx i acc))

/-! ### Where elements of the final state come from -/

theorem runComponents_mem_current (ctx : Ctx) (iid : Nat) :
    ∀ (cs : List String) (acc : DiffAcc) (x : String),
      x ∈ (runComponents ctx iid cs acc).current_entities →
      x ∈ acc.current_entities ∨
        ∃ c ∈ cs, x = switchUid ctx.server_id iid c ∧
          ∃ cl, ctx.conn iid = some cl := by
  intro cs
  induction cs with
  | nil => exact fun acc x hx => Or.inl hx
  | cons c cs ih =>
    intro acc x hx
    rcases ih (stepComponent ctx iid c acc) x hx with hstep | ⟨c', hc', hx', hcl⟩
    · rcases stepComponent_cases ctx iid c acc with ⟨_, h⟩ | ⟨_, _, h⟩ |
        ⟨cl, _, hconn, h⟩
      · rw [h] at hstep
        exact Or.inl hstep
      · rw [h] at hstep
        exact Or.inl hstep
      · rw [h] at hstep
        rcases mem_setAdd_iff.mp hstep with rfl | hmem
        · exact Or.inr ⟨c, List.mem_cons_self c cs, rfl, cl, hconn⟩
        · exact Or.inl hmem
    · exact Or.inr ⟨c', List.mem_cons_of_mem c hc', hx', hcl⟩

theorem runComponents_mem_toAdd (ctx : Ctx) (iid : Nat) :
    ∀ (cs : List String) (acc : DiffAcc) (e : HyperionSwitch),
      e ∈ (runComponents ctx iid cs acc).entities_to_add →
      e ∈ acc.entities_to_add ∨
        ∃ c ∈ cs, e.unique_id = switchUid ctx.server_id iid c ∧
          ∃ cl, ctx.conn iid = some cl := by
  intro cs
  induction cs with
  | nil => exact fun acc e he => Or.inl he
  | cons c cs ih =>
    intro acc e he
    rcases ih (stepComponent ctx iid c acc) e he with hstep | ⟨c', hc', he', hcl⟩
    · rcases stepComponent_cases ctx iid c acc with ⟨_, h⟩ | ⟨_, _, h⟩ |
        ⟨cl, _, hconn, h⟩
      · rw [h] at hstep
        exact Or.inl hstep
      · rw [h] at hstep
        exact Or.inl hstep
      · rw [h] at hstep
        rcases List.mem_append.mp hstep with hmem | hmem
        · exact Or.inl hmem
        · rw [List.mem_singleton] at hmem
          subst hmem
          exact Or.inr ⟨c, List.mem_cons_self c cs, rfl, cl, hconn⟩
    · exact Or.inr ⟨c', List.mem_cons_of_mem c hc', he', hcl⟩

theorem stepInstance_mem_current (ctx : Ctx) (i : Instance) (acc : DiffAcc)
    (x : String) (hx : x ∈ (stepInstance ctx i acc).current_entities) :
    x ∈ acc.current_entities ∨
      ∃ iid, i.instance_id = some iid ∧ i.running.getD false = true ∧
        ∃ c ∈ componentsForSwitch, x = switchUid ctx.server_id iid c ∧
          ∃ cl, ctx.conn iid = some cl := by
  cases hid : i.instance_id with
  | none =>
    simp only [stepInstance, hid] at hx
    exact Or.inl hx
  | some iid =>
    by_cases hrun : i.running.getD false = true
    · simp only [stepInstance, hid, hrun, if_true] at hx
      rcases runComponents_mem_current ctx iid componentsForSwitch acc x hx with
        hmem | ⟨c, hc, hx', hcl⟩
      · exact Or.inl hmem
      · exact Or.inr ⟨iid, rfl, hrun, c, hc, hx', hcl⟩
    · simp only [stepInstance, hid, hrun, if_false] at hx
      exact Or.inl hx

theorem stepInstance_mem_toAdd (ctx : Ctx) (i : Instance) (acc : DiffAcc)
    (e : HyperionSwitch) (he : e ∈ (stepInstance ctx i acc).entities_to_add) :
    e ∈ acc.entities_to_add ∨
      ∃ iid, i.instance_id = some iid ∧ i.running.getD false = true ∧
        ∃ c ∈ componentsForSwitch, e.unique_id = switchUid ctx.server_id iid c ∧
          ∃ cl, ctx.conn iid = some cl := by
  cases hid : i.instance_id with
  | none =>
    simp only [stepInstance, hid] at he
    exact Or.inl he
  | some iid =>
    by_cases hrun : i.running.getD false = true
    · simp only [stepInstance, hid, hrun, if_true] at he
      rcases runComponents_mem_toAdd ctx iid componentsForSwitch acc e he with
        hmem | ⟨c, hc, he', hcl⟩
      · exact Or.inl hmem
      · exact Or.inr ⟨iid, rfl, hrun, c, hc, he', hcl⟩
    · simp only [stepInstance, hid, hrun, if_false] at he
      exact Or.inl he

theorem runInstances_mem_current (ctx : Ctx) :
    ∀ (is : List Instance) (acc : DiffAcc) (x : String),
      x ∈ (runInstances ctx is acc).current_entities →
      x ∈ acc.current_entities ∨
        ∃ i ∈ is, ∃ iid, i.instance_id = some iid ∧
          i.running.getD false = true ∧
          ∃ c ∈ componentsForSwitch, x = switchUid ctx.server_id iid c ∧
            ∃ cl, ctx.conn iid = some cl := by
  intro is
  induction is with
  | nil => exact fun acc x hx => Or.inl hx
  | cons i rest ih =>
    intro acc x hx
    rcases ih (stepInstance ctx i acc) x hx with hstep | ⟨i', hi', rest'⟩
    · rcases stepInstance_mem_current ctx i acc x hstep with hmem | ⟨iid, h⟩
      · exact Or.inl hmem
      · exact Or.inr ⟨i, List.mem_cons_self i rest, iid, h⟩
    · exact Or.inr ⟨i', List.mem_cons_of_mem i hi', rest'⟩

theorem runInstances_mem_toAdd (ctx : Ctx) :
    ∀ (is : List Instance) (acc : DiffAcc) (e : HyperionSwitch),
      e ∈ (runInstances ctx is acc).entities_to_add →
      e ∈ acc.entities_to_add ∨
        ∃ i ∈ is, ∃ iid, i.instance_id = some iid ∧
          i.running.getD false = true ∧
          ∃ c ∈ componentsForSwitch, e.unique_id = switchUid ctx.server_id iid c ∧
            ∃ cl, ctx.conn iid = some cl := by
  intro is
  induction is with
  | nil => exact fun acc e he => Or.inl he
  | cons i rest ih =>
    intro acc e he
    rcases ih (stepInstance ctx i acc) e he with hstep | ⟨i', hi', rest'⟩
    · rcases stepInstance_mem_toAdd ctx i acc e hstep with hmem | ⟨iid, h⟩
      · exact Or.inl hmem
      · exact Or.inr ⟨i, List.mem_cons_self i rest, iid, h⟩
    · exact Or.inr ⟨i', List.mem_cons_of_mem i hi', rest'⟩

/-! ### Unfolding equations for the loops -/

theorem runComponents_nil (ctx : Ctx) (iid : Nat) (acc : DiffAcc) :
    runComponents ctx iid [] acc = acc := rfl

theorem runComponents_cons (ctx : Ctx) (iid : Nat) (c : String)
    (cs : List String) (acc : DiffAcc) :
    runComponents ctx iid (c :: cs) acc =
      runComponents ctx iid cs (stepComponent ctx iid c acc) := rfl

theorem runInstances_nil (ctx : Ctx) (acc : DiffAcc) :
    runInstances ctx [] acc = acc := rfl

theorem runInstances_cons (ctx : Ctx) (i : Instance) (rest : List Instance)
    (acc : DiffAcc) :
    runInstances ctx (i :: rest) acc =
      runInstances ctx rest (stepInstance ctx i acc) := rfl

/-! ### When every connection succeeds, every desired id ends up known -/

theorem stepComponent_success_mem (ctx : Ctx) (iid : Nat) (c : String)
    (acc : DiffAcc) (h : ∃ cl, ctx.conn iid = some cl) :
    switchUid ctx.server_id iid c ∈
      (stepComponent ctx iid c acc).current_entities := by
  rcases stepComponent_cases ctx iid c acc with ⟨hmem, hEq⟩ | ⟨_, hnone, _⟩ |
    ⟨cl, _, _, hEq⟩
  · rw [hEq]
    exact hmem
  · obtain ⟨cl, hcl⟩ := h
    rw [hnone] at hcl
    exact Option.noConfusion hcl
  · rw [hEq]
    exact mem_setAdd_self _ _

theorem runComponents_success_mem (ctx : Ctx) (iid : Nat)
    (h : ∃ cl, ctx.conn iid = some cl) :
    ∀ (cs : List String) (acc : DiffAcc), ∀ c ∈ cs,
      switchUid ctx.server_id iid c ∈
        (runComponents ctx iid cs acc).current_entities := by
  intro cs
  induction cs with
  | nil =>
    intro acc c hc
    simp at hc
  | cons c0 cs ih =>
    intro acc c hc
    rcases List.mem_cons.mp hc with rfl | hc'
    · rw [runComponents_cons]
      exact runComponents_current_mono ctx iid cs _
        (stepComponent_success_mem ctx iid c acc h)
    · rw [runComponents_cons]
      exact ih (stepComponent ctx iid c0 acc) c hc'

theorem runInstances_success_mem (ctx : Ctx)
    (hconn : ∀ n, (ctx.conn n).isSome = true) :
    ∀ (is : List Instance) (acc : DiffAcc) (i : Instance), i ∈ is →
      ∀ iid, i.instance_id = some iid → i.running.getD false = true →
      ∀ c ∈ componentsForSwitch,
        switchUid ctx.server_id iid c ∈
          (runInstances ctx is acc).current_entities := by
  intro is
  induction is with
  | nil =>
    intro acc i hi
    simp at hi
  | cons i0 rest ih =>
    intro acc i hi iid hid hrun c hc
    rcases List.mem_cons.mp hi with rfl | hi'
    · rw [runInstances_cons]
      apply runInstances_current_mono ctx rest
      have hsome : ∃ cl, ctx.conn iid = some cl := by
        have := hconn iid
        rwa [Option.isSome_iff_exists] at this
      simp only [stepInstance, hid, hrun, if_true]
      exact runComponents_success_mem ctx iid hsome componentsForSwitch acc c hc
    · rw [runInstances_cons]
      exact ih (stepInstance ctx i0 acc) i hi' iid hid hrun c hc

/-! ### When every desired id is already known, the diff is a no-op -/

theorem runComponents_noop (ctx : Ctx) (iid : Nat) :
    ∀ (cs : List String) (acc : DiffAcc),
      (∀ c ∈ cs, switchUid ctx.server_id iid c ∈ acc.current_entities) →
      (runComponents ctx iid cs acc).current_entities = acc.current_entities ∧
      (runComponents ctx iid cs acc).entities_to_add = acc.entities_to_add ∧
      (runComponents ctx iid cs acc).connect_attempts = acc.connect_attempts := by
  intro cs
  induction cs with
  | nil => exact fun acc _ => ⟨rfl, rfl, rfl⟩
  | cons c cs ih =>
    intro acc hknown
    have hc : switchUid ctx.server_id iid c ∈ acc.current_entities :=
      hknown c (List.mem_cons_self c cs)
    rcases stepComponent_cases ctx iid c acc with ⟨_, hEq⟩ | ⟨hnmem, _, _⟩ |
      ⟨cl, hnmem, _, _⟩
    · rw [runComponents_cons, hEq]
      exact ih _ (fun c' hc' => hknown c' (List.mem_cons_of_mem c hc'))
    · exact absurd hc hnmem
    · exact absurd hc hnmem

theorem runInstances_noop (ctx : Ctx) :
    ∀ (is : List Instance) (acc : DiffAcc),
      (∀ i ∈ is, ∀ iid, i.instance_id = some iid →
        i.running.getD false = true →
        ∀ c ∈ componentsForSwitch,
          switchUid ctx.server_id iid c ∈ acc.current_entities) →
      (runInstances ctx is acc).current_entities = acc.current_entities ∧
      (runInstances ctx is acc).entities_to_add = acc.entities_to_add ∧
      (runInstances ctx is acc).connect_attempts = acc.connect_attempts := by
  intro is
  induction is with
  | nil => exact fun acc _ => ⟨rfl, rfl, rfl⟩
  | cons i rest ih =>
    intro acc hknown
    have hstep : (stepInstance ctx i acc).current_entities = acc.current_entities ∧
        (stepInstance ctx i acc).entities_to_add = acc.entities_to_add ∧
        (stepInstance ctx i acc).connect_attempts = acc.connect_attempts := by
      cases hid : i.instance_id with
      | none => simp [stepInstance, hid]
      | some iid =>
        by_cases hrun : i.running.getD false = true
        · simp only [stepInstance, hid, hrun, if_true]
          exact runComponents_noop ctx iid componentsForSwitch acc
            (hknown i (List.mem_cons_self i rest) iid hid hrun)
        · simp [stepInstance, hid, hrun]
    obtain ⟨hs1, hs2, hs3⟩ := hstep
    rw [runInstances_cons]
    obtain ⟨h1, h2, h3⟩ := ih (stepInstance ctx i acc) (by
      intro i' hi' iid hid hrun c hc
      rw [hs1]
      exact hknown i' (List.mem_cons_of_mem i hi') iid hid hrun c hc)
    exact ⟨h1.trans hs1, h2.trans hs2, h3.trans hs3⟩

/-! ### The desired-ids set depends only on the server id and the snapshot -/

theorem stepComponent_desired (ctx : Ctx) (iid : Nat) (c : String)
    (acc : DiffAcc) :
    (stepComponent ctx iid c acc).desired_unique_ids =
      setAdd acc.desired_unique_ids (switchUid ctx.server_id iid c) := by
  rcases stepComponent_cases ctx iid c acc with ⟨_, hEq⟩ | ⟨_, _, hEq⟩ |
    ⟨cl, _, _, hEq⟩ <;> rw [hEq]

theorem runComponents_desired_eq (ctx1 ctx2 : Ctx)
    (hs : ctx1.server_id = ctx2.server_id) (iid : Nat) :
    ∀ (cs : List String) (acc1 acc2 : DiffAcc),
      acc1.desired_unique_ids = acc2.desired_unique_ids →
      (runComponents ctx1 iid cs acc1).desired_unique_ids =
        (runComponents ctx2 iid cs acc2).desired_unique_ids := by
  intro cs
  induction cs with
  | nil => exact fun acc1 acc2 h => h
  | cons c cs ih =>
    intro acc1 acc2 h
    rw [runComponents_cons, runComponents_cons]
    exact ih _ _ (by rw [stepComponent_desired, stepComponent_desired, h, hs])

theorem stepInstance_desired_eq (ctx1 ctx2 : Ctx)
    (hs : ctx1.server_id = ctx2.server_id) (i : Instance)
    (acc1 acc2 : DiffAcc)
    (h : acc1.desired_unique_ids = acc2.desired_unique_ids) :
    (stepInstance ctx1 i acc1).desired_unique_ids =
      (stepInstance ctx2 i acc2).desired_unique_ids := by
  cases hid : i.instance_id with
  | none => simp only [stepInstance, hid]; exact h
  | some iid =>
    by_cases hrun : i.running.getD false = true
    · simp only [stepInstance, hid, hrun, if_true]
      exact runComponents_desired_eq ctx1 ctx2 hs iid componentsForSwitch
        acc1 acc2 h
    · simp only [stepInstance, hid, hrun, if_false]
      exact h

theorem runInstances_desired_eq (ctx1 ctx2 : Ctx)
    (hs : ctx1.server_id = ctx2.server_id) :
    ∀ (is : List Instance) (acc1 acc2 : DiffAcc),
      acc1.desired_unique_ids = acc2.desired_unique_ids →
      (runInstances ctx1 is acc1).desired_unique_ids =
        (runInstances ctx2 is acc2).desired_unique_ids := by
  intro is
  induction is with
  | nil => exact fun acc1 acc2 h => h
  | cons i rest ih =>
    intro acc1 acc2 h
    rw [runInstances_cons, runInstances_cons]
    exact ih _ _ (stepInstance_desired_eq ctx1 ctx2 hs i acc1 acc2 h)

/-! ### With all connections succeeding, desired ids land in the known set -/

theorem stepComponent_success_desired (ctx : Ctx) (iid : Nat) (c : String)
    (acc : DiffAcc) (hsome : ∃ cl, ctx.conn iid = some cl)
    (hinv : ∀ u ∈ acc.desired_unique_ids, u ∈ acc.current_entities) :
    ∀ u ∈ (stepComponent ctx iid c acc).desired_unique_ids,
      u ∈ (stepComponent ctx iid c acc).current_entities := by
  intro u hu
  rw [stepComponent_desired] at hu
  rcases mem_setAdd_iff.mp hu with rfl | hu'
  · exact stepComponent_success_mem ctx iid c acc hsome
  · exact stepComponent_current_mono ctx iid c acc (hinv u hu')

theorem runComponents_success_desired (ctx : Ctx) (iid : Nat)
    (hsome : ∃ cl, ctx.conn iid = some cl) :
    ∀ (cs : List String) (acc : DiffAcc),
      (∀ u ∈ acc.desired_unique_ids, u ∈ acc.current_entities) →
      ∀ u ∈ (runComponents ctx iid cs acc).desired_unique_ids,
        u ∈ (runComponents ctx iid cs acc).current_entities := by
  intro cs
  induction cs with
  | nil => exact fun acc hinv => hinv
  | cons c cs ih =>
    intro acc hinv
    rw [runComponents_cons]
    exact ih _ (stepComponent_success_desired ctx iid c acc hsome hinv)

theorem stepInstance_success_desired (ctx : Ctx)
    (hconn : ∀ n, (ctx.conn n).isSome = true) (i : Instance) (acc : DiffAcc)
    (hinv : ∀ u ∈ acc.desired_unique_ids, u ∈ acc.current_entities) :
    ∀ u ∈ (stepInstance ctx i acc).desired_unique_ids,
      u ∈ (stepInstance ctx i acc).current_entities := by
  cases hid : i.instance_id with
  | none => simp only [stepInstance, hid]; exact hinv
  | some iid =>
    by_cases hrun : i.running.getD false = true
    · simp only [stepInstance, hid, hrun, if_true]
      have hsome : ∃ cl, ctx.conn iid = some cl := by
        have := hconn iid
        rwa [Option.isSome_iff_exists] at this
      exact runComponents_success_desired ctx iid hsome componentsForSwitch
        acc hinv
    · simp only [stepInstance, hid, hrun, if_false]
      exact hinv

theorem runInstances_success_desired (ctx : Ctx)
    (hconn : ∀ n, (ctx.conn n).isSome = true) :
    ∀ (is : List Instance) (acc : DiffAcc),
      (∀ u ∈ acc.desired_unique_ids, u ∈ acc.current_entities) →
      ∀ u ∈ (runInstances ctx is acc).desired_unique_ids,
        u ∈ (runInstances ctx is acc).current_entities := by
  intro is
  induction is with
  | nil => exact fun acc hinv => hinv
  | cons i rest ih =>
    intro acc hinv
    rw [runInstances_cons]
    exact ih _ (stepInstance_success_desired ctx hconn i acc hinv)

/-! ### Attempt tracking: unknown ids are always attempted -/

theorem stepComponent_P (ctx : Ctx) (iid : Nat) (c : String) (acc : DiffAcc)
    (x : String)
    (h : x ∈ acc.connect_attempts ∨ x ∉ acc.current_entities) :
    x ∈ (stepComponent ctx iid c acc).connect_attempts ∨
      x ∉ (stepComponent ctx iid c acc).current_entities := by
  rcases h with ha | hn
  · exact Or.inl (stepComponent_attempts_mono ctx iid c acc ha)
  · rcases stepComponent_cases ctx iid c acc with ⟨_, hEq⟩ | ⟨_, _, hEq⟩ |
      ⟨cl, hnmem, _, hEq⟩
    · rw [hEq]
      exact Or.inr hn
    · rw [hEq]
      exact Or.inr hn
    · rw [hEq]
      by_cases hx : x = switchUid ctx.server_id iid c
      · subst hx
        exact Or.inl (List.mem_append_right _ (List.mem_singleton.mpr rfl))
      · refine Or.inr fun hmem => ?_
        rcases mem_setAdd_iff.mp hmem with h1 | h2
        · exact hx h1
        · exact hn h2

theorem stepComponent_attempt_self (ctx : Ctx) (iid : Nat) (c : String)
    (acc : DiffAcc)
    (hn : switchUid ctx.server_id iid c ∉ acc.current_entities) :
    switchUid ctx.server_id iid c ∈
      (stepComponent ctx iid c acc).connect_attempts := by
  rcases stepComponent_cases ctx iid c acc with ⟨hmem, _⟩ | ⟨_, _, hEq⟩ |
    ⟨cl, _, _, hEq⟩
  · exact absurd hmem hn
  · rw [hEq]
    exact List.mem_append_right _ (List.mem_singleton.mpr rfl)
  · rw [hEq]
    exact List.mem_append_right _ (List.mem_singleton.mpr rfl)

theorem runComponents_P (ctx : Ctx) (iid : Nat) :
    ∀ (cs : List String) (acc : DiffAcc) (x : String),
      (x ∈ acc.connect_attempts ∨ x ∉ acc.current_entities) →
      x ∈ (runComponents ctx iid cs acc).connect_attempts ∨
        x ∉ (runComponents ctx iid cs acc).current_entities := by
  intro cs
  induction cs with
  | nil => exact fun acc x h => h
  | cons c cs ih =>
    intro acc x h
    rw [runComponents_cons]
    exact ih _ x (stepComponent_P ctx iid c acc x h)

theorem runComponents_attempt (ctx : Ctx) (iid : Nat) :
    ∀ (cs : List String) (acc : DiffAcc) (c : String), c ∈ cs →
      (switchUid ctx.server_id iid c ∈ acc.connect_attempts ∨
        switchUid ctx.server_id iid c ∉ acc.current_entities) →
      switchUid ctx.server_id iid c ∈
        (runComponents ctx iid cs acc).connect_attempts := by
  intro cs
  induction cs with
  | nil =>
    intro acc c hc
    simp at hc
  | cons c0 cs ih =>
    intro acc c hc hP
    rcases List.mem_cons.mp hc with rfl | hc'
    · rcases hP with ha | hn
      · rw [runComponents_cons]
        exact runComponents_attempts_mono ctx iid cs _
          (stepComponent_attempts_mono ctx iid c acc ha)
      · rw [runComponents_cons]
        exact runComponents_attempts_mono ctx iid cs _
          (stepComponent_attempt_self ctx iid c acc hn)
    · rw [runComponents_cons]
      exact ih (stepComponent ctx iid c0 acc) c hc'
        (stepComponent_P ctx iid c0 acc _ hP)

theorem stepInstance_P (ctx : Ctx) (i : Instance) (acc : DiffAcc) (x : String)
    (h : x ∈ acc.connect_attempts ∨ x ∉ acc.current_entities) :
    x ∈ (stepInstance ctx i acc).connect_attempts ∨
      x ∉ (stepInstance ctx i acc).current_entities := by
  cases hid : i.instance_id with
  | none => simp only [stepInstance, hid]; exact h
  | some iid =>
    by_cases hrun : i.running.getD false = true
    · simp only [stepInstance, hid, hrun, if_true]
      exact runComponents_P ctx iid componentsForSwitch acc x h
    · simp only [stepInstance, hid, hrun, if_false]
      exact h

theorem runInstances_attempt (ctx : Ctx) :
    ∀ (is : List Instance) (acc : DiffAcc) (i : Instance), i ∈ is →
      ∀ iid, i.instance_id = some iid → i.running.getD false = true →
      ∀ c ∈ componentsForSwitch,
      (switchUid ctx.server_id iid c ∈ acc.connect_attempts ∨
        switchUid ctx.server_id iid c ∉ acc.current_entities) →
      switchUid ctx.server_id iid c ∈
        (runInstances ctx is acc).connect_attempts := by
  intro is
  induction is with
  | nil =>
    intro acc i hi
    simp at hi
  | cons i0 rest ih =>
    intro acc i hi iid hid hrun c hc hP
    rcases List.mem_cons.mp hi with rfl | hi'
    · rw [runInstances_cons]
      apply runInstances_attempts_mono ctx rest
      simp only [stepInstance, hid, hrun, if_true]
      exact runComponents_attempt ctx iid componentsForSwitch acc c hc hP
    · rw [runInstances_cons]
      exact ih (stepInstance ctx i0 acc) i hi' iid hid hrun c hc
        (stepInstance_P ctx i0 acc _ hP)

/-! ### Entity-level lemmas -/

/-- `async_turn_on` characterised: no call when cached state is on, one
set-component(true) call otherwise, always returning normally. -/
theorem async_turn_on_eq (e : HyperionSwitch) :
    async_turn_on e =
      Except.ok (e, if e.isOnProp then ([] : List SetComponentCall)
        else [{ component := e.name, state := true }]) := by
  unfold async_turn_on
  by_cases h : e.isOnProp <;> simp [h]

/-- `async_turn_off` characterised: exactly one set-component(false) call,
always returning normally. -/
theorem async_turn_off_eq (e : HyperionSwitch) :
    async_turn_off e =
      Except.ok (e, [{ component := e.name, state := false }]) := by
  unfold async_turn_off
  split <;> rfl

/-- C3: turnOn with the cached state on issues zero set-component calls;
with the cached state off it issues exactly one set-component call with
enabled = true. -/
theorem turn_on_conditional_call (e : HyperionSwitch) :
    async_turn_on e =
      Except.ok (e, if e.isOnProp then ([] : List SetComponentCall)
        else [{ component := e.name, state := true }]) :=
  async_turn_on_eq e

/-- C4: turnOff issues exactly one set-component call with enabled = false,
unconditionally, whatever the prior cached state. -/
theorem turn_off_unconditional_call (e : HyperionSwitch) :
    async_turn_off e =
      Except.ok (e, [{ component := e.name, state := false }]) :=
  async_turn_off_eq e

/-- C7: when the client's set-component command reports failure, turnOn and
turnOff still return normally (no exception) and leave the entity state
unchanged; the issued call traces are as in the success case. -/
theorem command_failure_silent (e : HyperionSwitch)
    (hfail : ∀ b, e.client.send_set_component e.name b = false) :
    async_turn_on e =
      Except.ok (e, if e.isOnProp then ([] : List SetComponentCall)
        else [{ component := e.name, state := true }]) ∧
    async_turn_off e =
      Except.ok (e, [{ component := e.name, state := false }]) :=
  ⟨async_turn_on_eq e, async_turn_off_eq e⟩

/-- Witness for C7 at a concrete entity whose client always fails. -/
theorem command_failure_silent_witness :
    (∀ b, switchFailing.client.send_set_component switchFailing.name b = false) ∧
    (async_turn_on switchFailing =
      Except.ok (switchFailing, if switchFailing.isOnProp
        then ([] : List SetComponentCall)
        else [{ component := switchFailing.name, state := true }]) ∧
    async_turn_off switchFailing =
      Except.ok (switchFailing, [{ component := switchFailing.name, state := false }])) :=
  ⟨fun _ => rfl, command_failure_silent switchFailing (fun _ => rfl)⟩

/-- C8: the component-update callback ignores the push payload entirely —
for every payload, including an absent one, it returns normally with the
same single re-render action. -/
theorem update_components_ignores_payload (e : HyperionSwitch)
    (payload : Option (List (String × String))) :
    update_components e payload = Except.ok [EntityAction.writeHAState] ∧
    update_components e payload = update_components e none :=
  ⟨rfl, rfl⟩

/-- C9: YAML platform setup either completes normally or raises
PlatformNotReady, and it completes exactly when the client connected and the
server identifier query returned a non-falsy id. -/
theorem setup_platform_ready_iff (r : Option HyperionClient) :
    (async_setup_platform r = Except.ok () ∨
      async_setup_platform r = Except.error SetupError.platformNotReady) ∧
    (async_setup_platform r = Except.ok () ↔
      ∃ cl s, r = some cl ∧ cl.sysinfo_id = some s ∧ s ≠ "") := by
  constructor
  · cases r with
    | none => exact Or.inr rfl
    | some cl =>
      cases h : cl.sysinfo_id with
      | none => exact Or.inr (by simp [async_setup_platform, h])
      | some s =>
        by_cases hs : s = ""
        · exact Or.inr (by simp [async_setup_platform, h, hs])
        · exact Or.inl (by simp [async_setup_platform, h, hs])
  · constructor
    · intro hok
      cases r with
      | none => simp [async_setup_platform] at hok
      | some cl =>
        cases h : cl.sysinfo_id with
        | none => simp [async_setup_platform, h] at hok
        | some s =>
          by_cases hs : s = ""
          · simp [async_setup_platform, h, hs] at hok
          · exact ⟨cl, s, rfl, h, hs⟩
    · rintro ⟨cl, s, rfl, hs, hne⟩
      simp [async_setup_platform, hs, hne]

/-- C10: a falsy dispatcher payload, or one lacking the data key, is a
complete no-op (set unchanged, no connection attempts, no entities); and
inside the diff, an instance entry with an absent instance id is skipped
exactly like a non-running one. -/
theorem dispatcher_and_skip_noop (ctx : Ctx) (current : List String)
    (resp : InstancesResponse) (h0 : resp.data = none)
    (i j : Instance) (hi : i.instance_id = none)
    (hj : j.running.getD false = false) (rest : List Instance) :
    async_instances_to_entities ctx current none =
      { current_entities := current, desired_unique_ids := []
        entities_to_add := [], connect_attempts := []
        removal_signals := [], registry_removals := [] } ∧
    async_instances_to_entities ctx current (some resp) =
      { current_entities := current, desired_unique_ids := []
        entities_to_add := [], connect_attempts := []
        removal_signals := [], registry_removals := [] } ∧
    async_instances_to_entities_raw ctx current (i :: rest) =
      async_instances_to_entities_raw ctx current rest ∧
    async_instances_to_entities_raw ctx current (j :: rest) =
      async_instances_to_entities_raw ctx current rest := by
  refine ⟨rfl, ?_, ?_, ?_⟩
  · obtain ⟨d⟩ := resp
    simp only at h0
    subst h0
    rfl
  · simp [async_instances_to_entities_raw, runInstances, stepInstance, hi]
  · cases hcase : j.instance_id with
    | none =>
      simp [async_instances_to_entities_raw, runInstances, stepInstance, hcase]
    | some iid =>
      simp [async_instances_to_entities_raw, runInstances, stepInstance, hcase, hj]

/-- Witness for C10 at concrete payloads and instance entries. -/
theorem dispatcher_and_skip_noop_witness :
    (respNoData.data = none ∧ instNoId.instance_id = none ∧
      instStopped.running.getD false = false) ∧
    (async_instances_to_entities ctxNone [] none =
      { current_entities := [], desired_unique_ids := []
        entities_to_add := [], connect_attempts := []
        removal_signals := [], registry_removals := [] } ∧
    async_instances_to_entities ctxNone [] (some respNoData) =
      { current_entities := [], desired_unique_ids := []
        entities_to_add := [], connect_attempts := []
        removal_signals := [], registry_removals := [] } ∧
    async_instances_to_entities_raw ctxNone [] (instNoId :: []) =
      async_instances_to_entities_raw ctxNone [] [] ∧
    async_instances_to_entities_raw ctxNone [] (instStopped :: []) =
      async_instances_to_entities_raw ctxNone [] []) :=
  ⟨⟨rfl, rfl, rfl⟩,
    dispatcher_and_skip_noop ctxNone [] respNoData rfl instNoId instStopped
      rfl rfl []⟩

/-! ### Wrapper helper lemmas -/

theorem runEvents_nil (server : String) (options : Options)
    (current : List String) :
    runEvents server options [] current = (current, []) := rfl

theorem runEvents_cons (server : String) (options : Options) (e : UpdateEvent)
    (rest : List UpdateEvent) (current : List String) :
    runEvents server options (e :: rest) current =
      ((runEvents server options rest
          (async_instances_to_entities
            { server_id := server, conn := e.conn, options := options }
            current e.response).current_entities).1,
        async_instances_to_entities
          { server_id := server, conn := e.conn, options := options }
          current e.response ::
        (runEvents server options rest
          (async_instances_to_entities
            { server_id := server, conn := e.conn, options := options }
            current e.response).current_entities).2) := rfl

theorem wrapper_current_mono (ctx : Ctx) (current : List String)
    (resp : Option InstancesResponse) :
    current ⊆ (async_instances_to_entities ctx current resp).current_entities := by
  cases resp with
  | none => exact fun x hx => hx
  | some r =>
    cases hd : r.data with
    | none =>
      simp only [async_instances_to_entities, hd]
      exact fun x hx => hx
    | some instances =>
      simp only [async_instances_to_entities, hd]
      exact runInstances_current_mono ctx instances
        { current_entities := current, desired_unique_ids := []
          entities_to_add := [], connect_attempts := [] }

theorem wrapper_removals (ctx : Ctx) (current : List String)
    (resp : Option InstancesResponse) :
    (async_instances_to_entities ctx current resp).removal_signals = [] ∧
    (async_instances_to_entities ctx current resp).registry_removals = [] := by
  cases resp with
  | none => exact ⟨rfl, rfl⟩
  | some r =>
    cases hd : r.data with
    | none => simp [async_instances_to_entities, hd]
    | some instances =>
      simp [async_instances_to_entities, hd, async_instances_to_entities_raw]

/-! ### Claim theorems on the reconciler -/

/-- C1: running the diff on a snapshot starting from an empty known set and
then running it again on the same snapshot yields zero creation requests on
the second run — no connection attempts, the known set unchanged, and every
identifier computed in the second run already a member of the known set —
provided every client-handle acquisition succeeded in the first run. -/
theorem second_diff_creates_nothing (server : String)
    (conn1 conn2 : Nat → Option HyperionClient) (opt1 opt2 : Options)
    (S : List Instance) (hconn : ∀ n, (conn1 n).isSome = true) :
    let ctx1 : Ctx := { server_id := server, conn := conn1, options := opt1 }
    let ctx2 : Ctx := { server_id := server, conn := conn2, options := opt2 }
    let r1 := async_instances_to_entities_raw ctx1 [] S
    let r2 := async_instances_to_entities_raw ctx2 r1.current_entities S
    r2.entities_to_add = [] ∧ r2.connect_attempts = [] ∧
    r2.current_entities = r1.current_entities ∧
    ∀ u ∈ r2.desired_unique_ids, u ∈ r1.current_entities := by
  intro ctx1 ctx2 r1 r2
  have hknown : ∀ i ∈ S, ∀ iid, i.instance_id = some iid →
      i.running.getD false = true → ∀ c ∈ componentsForSwitch,
      switchUid server iid c ∈ r1.current_entities := by
    intro i hi iid hid hrun c hc
    exact runInstances_success_mem ctx1 hconn S
      { current_entities := [], desired_unique_ids := []
        entities_to_add := [], connect_attempts := [] } i hi iid hid hrun c hc
  have noop := runInstances_noop ctx2 S
    { current_entities := r1.current_entities, desired_unique_ids := []
      entities_to_add := [], connect_attempts := [] }
    (fun i hi iid hid hrun c hc => hknown i hi iid hid hrun c hc)
  refine ⟨noop.2.1, noop.2.2, noop.1, ?_⟩
  intro u hu
  have hdes : r2.desired_unique_ids = r1.desired_unique_ids :=
    runInstances_desired_eq ctx2 ctx1 rfl S
      { current_entities := r1.current_entities, desired_unique_ids := []
        entities_to_add := [], connect_attempts := [] }
      { current_entities := [], desired_unique_ids := []
        entities_to_add := [], connect_attempts := [] } rfl
  rw [hdes] at hu
  exact runInstances_success_desired ctx1 hconn S
    { current_entities := [], desired_unique_ids := []
      entities_to_add := [], connect_attempts := [] }
    (fun u hu0 => absurd hu0 (List.not_mem_nil u)) u hu

/-- C2: over any sequence of instances-update events the known-entities set
never shrinks — every previously known identifier is still known at the end
— and no event ever emits a removal signal or a registry deletion: the
removal path is inert. -/
theorem known_entities_never_shrink (server : String) (options : Options)
    (events : List UpdateEvent) (current : List String) (u : String)
    (hu : u ∈ current) :
    u ∈ (runEvents server options events current).1 ∧
    ∀ r ∈ (runEvents server options events current).2,
      r.removal_signals = [] ∧ r.registry_removals = [] := by
  induction events generalizing current with
  | nil =>
    rw [runEvents_nil]
    exact ⟨hu, fun r hr => absurd hr (List.not_mem_nil r)⟩
  | cons e rest ih =>
    rw [runEvents_cons]
    have hu' : u ∈ (async_instances_to_entities
        { server_id := server, conn := e.conn, options := options }
        current e.response).current_entities :=
      wrapper_current_mono _ current e.response hu
    obtain ⟨h1, h2⟩ := ih _ hu'
    refine ⟨h1, ?_⟩
    intro r hr
    rcases List.mem_cons.mp hr with rfl | hr'
    · exact wrapper_removals _ current e.response
    · exact h2 r hr'

/-- C6: when client-handle acquisition fails for a not-yet-known identifier,
that identifier is not added to the known set, no created entity carries it,
no error escapes (the run still returns its result), the connection was
attempted for it, and on the next update over the same snapshot it is
attempted again, whatever the new connection oracle. -/
theorem failed_connect_skip_and_retry (ctx : Ctx) (current : List String)
    (instances : List Instance) (iid : Nat) (c : String) (i : Instance)
    (hconn : ctx.conn iid = none) (hi : i ∈ instances)
    (hid : i.instance_id = some iid) (hrun : i.running.getD false = true)
    (hc : c ∈ componentsForSwitch)
    (hnew : switchUid ctx.server_id iid c ∉ current) :
    switchUid ctx.server_id iid c ∉
      (async_instances_to_entities_raw ctx current instances).current_entities ∧
    (∀ e ∈ (async_instances_to_entities_raw ctx current instances).entities_to_add,
      e.unique_id ≠ switchUid ctx.server_id iid c) ∧
    switchUid ctx.server_id iid c ∈
      (async_instances_to_entities_raw ctx current instances).connect_attempts ∧
    ∀ (conn2 : Nat → Option HyperionClient) (opt2 : Options),
      switchUid ctx.server_id iid c ∈
        (async_instances_to_entities_raw
          { server_id := ctx.server_id, conn := conn2, options := opt2 }
          (async_instances_to_entities_raw ctx current instances).current_entities
          instances).connect_attempts := by
  have hnotin : switchUid ctx.server_id iid c ∉
      (async_instances_to_entities_raw ctx current instances).current_entities := by
    intro hmem
    rcases runInstances_mem_current ctx instances
        { current_entities := current, desired_unique_ids := []
          entities_to_add := [], connect_attempts := [] }
        (switchUid ctx.server_id iid c) hmem with
      hmem0 | ⟨i', hi', iid', hid', hrun', c', hc', hEqU, cl, hcl⟩
    · exact hnew hmem0
    · obtain ⟨hiid, -⟩ := switchUid_inj hEqU
      rw [← hiid, hconn] at hcl
      exact Option.noConfusion hcl
  refine ⟨hnotin, ?_, ?_, ?_⟩
  · intro e he hEq
    rcases runInstances_mem_toAdd ctx instances
        { current_entities := current, desired_unique_ids := []
          entities_to_add := [], connect_attempts := [] } e he with
      h0 | ⟨i', hi', iid', hid', hrun', c', hc', hEqU, cl, hcl⟩
    · exact absurd h0 (List.not_mem_nil e)
    · have huu : switchUid ctx.server_id iid c =
          switchUid ctx.server_id iid' c' := by rw [← hEq, hEqU]
      obtain ⟨hiid, -⟩ := switchUid_inj huu
      rw [← hiid, hconn] at hcl
      exact Option.noConfusion hcl
  · exact runInstances_attempt ctx instances
      { current_entities := current, desired_unique_ids := []
        entities_to_add := [], connect_attempts := [] }
      i hi iid hid hrun c hc (Or.inr hnew)
  · intro conn2 opt2
    exact runInstances_attempt
      { server_id := ctx.server_id, conn := conn2, options := opt2 }
      instances
      { current_entities :=
          (async_instances_to_entities_raw ctx current instances).current_entities
        desired_unique_ids := [], entities_to_add := [], connect_attempts := [] }
      i hi iid hid hrun c hc (Or.inr hnotin)

/-- Witness for C1 at a concrete snapshot with an all-success oracle. -/
theorem second_diff_creates_nothing_witness :
    (∀ n, (connAllOk n).isSome = true) ∧
    (async_instances_to_entities_raw
        { server_id := "abc", conn := connAllOk, options := [] }
        (async_instances_to_entities_raw
          { server_id := "abc", conn := connAllOk, options := [] }
          [] demoInstances).current_entities
        demoInstances).entities_to_add = [] ∧
    (async_instances_to_entities_raw
        { server_id := "abc", conn := connAllOk, options := [] }
        (async_instances_to_entities_raw
          { server_id := "abc", conn := connAllOk, options := [] }
          [] demoInstances).current_entities
        demoInstances).connect_attempts = [] :=
  ⟨fun _ => rfl,
    (second_diff_creates_nothing "abc" connAllOk connAllOk [] [] demoInstances
      (fun _ => rfl)).1,
    (second_diff_creates_nothing "abc" connAllOk connAllOk [] [] demoInstances
      (fun _ => rfl)).2.1⟩

/-- Witness for C2 at a concrete event sequence. -/
theorem known_entities_never_shrink_witness :
    "k" ∈ (runEvents "abc" [] [demoEvent] ["k"]).1 :=
  (known_entities_never_shrink "abc" [] [demoEvent] ["k"] "k"
    (List.mem_singleton.mpr rfl)).1

/-- Witness for C6 at a concrete failing oracle. -/
theorem failed_connect_skip_and_retry_witness :
    ctxNone.conn 1 = none ∧
    switchUid ctxNone.server_id 1 "V4L" ∉
      (async_instances_to_entities_raw ctxNone [] demoInstances).current_entities ∧
    switchUid ctxNone.server_id 1 "V4L" ∈
      (async_instances_to_entities_raw ctxNone [] demoInstances).connect_attempts :=
  have h := failed_connect_skip_and_retry ctxNone [] demoInstances 1 "V4L"
    demoInst rfl (List.mem_singleton.mpr rfl) rfl rfl (by decide) (by decide)
  ⟨rfl, h.1, h.2.2.1⟩

end Hyperion
